import Mathlib

/-!
Verification development for the repository "quant-": a JoinQuant trading
strategy (src/first-board-low-open/strategy_fb_low_open.py) and a PE/PB
valuation visualization script (src/PB PE可视化/pe_measure.py).

The vendor platform (JoinQuant) supplies market data, the trading calendar,
security metadata and order execution; it is embedded as an abstract
environment structure (`Market` below, `FetchEnv` for the valuation script).
Prices are rationals (Python floats carry exact decimal data here; all the
code does is compare and take ratios), dates are integers (ordinal days),
ticker codes are strings.  Division is total on ℚ with x / 0 = 0; the Python
code would raise on a zero denominator, and every such spot is noted at the
definition it concerns.
-/

namespace Common

/-- Order-preserving deduplication keeping first occurrences, with an
accumulator of already-seen keys: the semantics of Python
list(dict.fromkeys(l)) and of keep-first grouping. -/
def dedupFirstAux {α : Type} [DecidableEq α] (seen : List α) : List α → List α
  | [] => []
  | c :: cs =>
    if c ∈ seen then dedupFirstAux seen cs
    else c :: dedupFirstAux (c :: seen) cs

/-- Order-preserving deduplication keeping first occurrences. -/
def dedupFirst {α : Type} [DecidableEq α] (l : List α) : List α :=
  dedupFirstAux [] l

theorem mem_dedupFirstAux {α : Type} [DecidableEq α] (l : List α) :
    ∀ (seen : List α) (x : α),
      x ∈ dedupFirstAux seen l ↔ x ∈ l ∧ x ∉ seen := by
  induction l with
  | nil => intro seen x; simp [dedupFirstAux]
  | cons c cs ih =>
    intro seen x
    by_cases hc : c ∈ seen
    · rw [dedupFirstAux, if_pos hc, ih]
      constructor
      · rintro ⟨hx, hns⟩; exact ⟨List.mem_cons_of_mem _ hx, hns⟩
      · rintro ⟨hx, hns⟩
        rcases List.mem_cons.mp hx with rfl | hx
        · exact absurd hc hns
        · exact ⟨hx, hns⟩
    · rw [dedupFirstAux, if_neg hc, List.mem_cons, ih]
      constructor
      · rintro (rfl | ⟨hx, hns⟩)
        · exact ⟨List.mem_cons_self _ _, hc⟩
        · refine ⟨List.mem_cons_of_mem _ hx, fun hs => hns (List.mem_cons_of_mem _ hs)⟩
      · rintro ⟨hx, hns⟩
        rcases List.mem_cons.mp hx with rfl | hx
        · exact Or.inl rfl
        · by_cases hxc : x = c
          · exact Or.inl hxc
          · refine Or.inr ⟨hx, fun hs => ?_⟩
            rcases List.mem_cons.mp hs with h | h
            · exact hxc h
            · exact hns h

theorem mem_dedupFirst {α : Type} [DecidableEq α] (l : List α) (x : α) :
    x ∈ dedupFirst l ↔ x ∈ l := by
  simp [dedupFirst, mem_dedupFirstAux]

theorem nodup_dedupFirstAux {α : Type} [DecidableEq α] (l : List α) :
    ∀ seen : List α, (dedupFirstAux seen l).Nodup := by
  induction l with
  | nil => intro seen; simp [dedupFirstAux]
  | cons c cs ih =>
    intro seen
    by_cases hc : c ∈ seen
    · simpa [dedupFirstAux, if_pos hc] using ih seen
    · simp only [dedupFirstAux, if_neg hc]
      refine List.nodup_cons.mpr ⟨fun hmem => ?_, ih (c :: seen)⟩
      exact ((mem_dedupFirstAux cs (c :: seen) c).mp hmem).2 (List.mem_cons_self c seen)

theorem nodup_dedupFirst {α : Type} [DecidableEq α] (l : List α) :
    (dedupFirst l).Nodup :=
  nodup_dedupFirstAux l []

theorem dedupFirstAux_sublist {α : Type} [DecidableEq α] (l : List α) :
    ∀ seen : List α, List.Sublist (dedupFirstAux seen l) l := by
  induction l with
  | nil => intro seen; simp [dedupFirstAux]
  | cons c cs ih =>
    intro seen
    by_cases hc : c ∈ seen
    · simpa [dedupFirstAux, if_pos hc] using (ih seen).cons c
    · simpa [dedupFirstAux, if_neg hc] using (ih (c :: seen)).cons₂ c

theorem dedupFirst_sublist {α : Type} [DecidableEq α] (l : List α) :
    List.Sublist (dedupFirst l) l :=
  dedupFirstAux_sublist l []

theorem dedupFirstAux_append {α : Type} [DecidableEq α] (l₁ : List α) :
    ∀ (seen l₂ : List α), ∃ t : List α,
      dedupFirstAux seen (l₁ ++ l₂) = dedupFirstAux seen l₁ ++ t ∧
      ∀ x ∈ t, x ∈ l₂ ∧ x ∉ seen ∧ x ∉ l₁ := by
  induction l₁ with
  | nil =>
    intro seen l₂
    refine ⟨dedupFirstAux seen l₂, by simp [dedupFirstAux], fun x hx => ?_⟩
    have := (mem_dedupFirstAux l₂ seen x).mp hx
    exact ⟨this.1, this.2, by simp⟩
  | cons c cs ih =>
    intro seen l₂
    by_cases hc : c ∈ seen
    · obtain ⟨t, ht, hmem⟩ := ih seen l₂
      refine ⟨t, by simp [dedupFirstAux, if_pos hc, ht], fun x hx => ?_⟩
      obtain ⟨h1, h2, h3⟩ := hmem x hx
      refine ⟨h1, h2, fun hmem' => ?_⟩
      rcases List.mem_cons.mp hmem' with rfl | h
      · exact h2 hc
      · exact h3 h
    · obtain ⟨t, ht, hmem⟩ := ih (c :: seen) l₂
      refine ⟨t, by simp [dedupFirstAux, if_neg hc, ht], fun x hx => ?_⟩
      obtain ⟨h1, h2, h3⟩ := hmem x hx
      have hxc : x ≠ c := fun h => h2 (h ▸ List.mem_cons_self c seen)
      refine ⟨h1, fun hs => h2 (List.mem_cons_of_mem _ hs), fun hmem' => ?_⟩
      rcases List.mem_cons.mp hmem' with h | h
      · exact hxc h
      · exact h3 h

theorem dedupFirst_append {α : Type} [DecidableEq α] (l₁ l₂ : List α) :
    ∃ t : List α, dedupFirst (l₁ ++ l₂) = dedupFirst l₁ ++ t ∧
      ∀ x ∈ t, x ∈ l₂ ∧ x ∉ l₁ := by
  obtain ⟨t, ht, hmem⟩ := dedupFirstAux_append l₁ [] l₂
  exact ⟨t, ht, fun x hx => ⟨(hmem x hx).1, (hmem x hx).2.2⟩⟩

end Common

namespace StrategyFbLowOpen

/-! Shallow embedding of src/first-board-low-open/strategy_fb_low_open.py.

The JoinQuant data API is abstracted into the `Market` structure below; the
strategy functions are translated line by line against it.  A single-day
get_price query (count=1, or start_date=end_date) for one code is modelled
by `Market.rowAt`: `some r` is a fully populated daily bar, `none` a bar that
is missing or NaN (and hence dropped by .dropna(), skipped by .empty guards,
or failing every NaN comparison).  A multi-day get_price query with count=k
is modelled by `Market.window` returning the available bars oldest first. -/

abbrev Code := String
abbrev Date := ℤ

/-- One daily price bar: the fields the strategy ever requests from
get_price (open, close, high, low, pre_close, high_limit, low_limit). -/
structure Row where
  openP : ℚ
  close : ℚ
  high : ℚ
  low : ℚ
  preClose : ℚ
  highLimit : ℚ
  lowLimit : ℚ
deriving DecidableEq

/-- The JoinQuant data environment the strategy calls into. -/
structure Market where
  /-- Daily bar of one code at one date (single-day get_price query);
  `none` models a missing or NaN row. -/
  rowAt : Code → Date → Option Row
  /-- Bars of the last k trading days up to a date (get_price with count=k),
  oldest first. -/
  window : Code → Date → Nat → List Row
  /-- Listing date of a security (get_security_info(stock).start_date). -/
  startDate : Code → Date
  /-- All stock codes listed at a date (get_all_securities with a date). -/
  allSecurities : Date → List Code
  /-- get_trade_days(start_date, end_date), ascending. -/
  tradeDaysRange : Date → Date → List Date
  /-- get_trade_days(end_date, count), ascending. -/
  tradeDaysUpTo : Date → Nat → List Date

/-- The strategy context: only the current datetime matters for the
embedded code; `currentDate` is context.current_dt.date() and `timeOfDay`
is the last eight characters of str(context.current_dt). -/
structure Context where
  currentDate : Date
  timeOfDay : String

/-- The process-wide tunable globals g.open_min_1 .. g.open_max_2. -/
structure Params where
  openMin1 : ℚ
  openMax1 : ℚ
  openMin2 : ℚ
  openMax2 : ℚ
deriving DecidableEq

/-- set_params: the literal values assigned to g in the source. -/
def set_params : Params :=
  { openMin1 := 1/4, openMax1 := 1, openMin2 := -4, openMax2 := -3 }

/-- get_previous_trade_day(context, n): fetch the last 100 trading days up
to today, return None when n > len(trade_days), else trade_days[-(n+1)].
The Python negative index raises IndexError when n + 1 > len(trade_days);
that uncaught exception is the `Except.error` branch here. -/
def get_previous_trade_day (m : Market) (ctx : Context) (n : Nat) :
    Except Unit (Option Date) :=
  let tradeDays := m.tradeDaysUpTo ctx.currentDate 100
  if n > tradeDays.length then Except.ok none
  else if n + 1 ≤ tradeDays.length then
    Except.ok (tradeDays.get? (tradeDays.length - (n + 1)))
  else Except.error ()

/-- The close == high_limit test shared by get_limit_up_stock and
get_no_limit_up_stocks: a code whose row was dropped by .dropna() is not
detected as limit-up. -/
def limitUpAt (m : Market) (c : Code) (d : Date) : Bool :=
  match m.rowAt c d with
  | some r => decide (r.close = r.highLimit)
  | none => false

/-- get_limit_up_stock: keep the codes of the queried list whose (non-NaN)
bar at the date has close == high_limit. -/
def get_limit_up_stock (m : Market) (initialList : List Code) (date : Date) :
    List Code :=
  initialList.filter (fun c => limitUpAt m c date)

/-- filter_new_stock: keep stocks with date - start_date > timedelta(days). -/
def filter_new_stock (m : Market) (initialList : List Code) (date : Date)
    (days : ℤ) : List Code :=
  initialList.filter (fun s => decide (date - m.startDate s > days))

/-- The pool-1 return-percentage rule of filter_st_stock: exactly two bars
returned, yesterday-to-today close return strictly between 4 and 6 percent,
and todays close above 2.5.  The try/except in the source only converts a
zero yesterday close into a skip; in ℚ the ratio is then 0 and the 4 < 0
test skips identically. -/
def st_rule_ok (m : Market) (s : Code) (date : Date) : Bool :=
  match m.window s date 2 with
  | [r1, r2] =>
    decide (4 < (r2.close - r1.close) / r1.close * 100 ∧
            (r2.close - r1.close) / r1.close * 100 < 6 ∧
            r2.close > 5/2)
  | _ => false

/-- filter_st_stock (pool 1 return-percentage filter). -/
def filter_st_stock (m : Market) (stockList : List Code) (date : Date) :
    List Code :=
  stockList.filter (fun s => st_rule_ok m s date)

/-- The pool-1 opening-range test of filter_stocks_by_opening_range:
non-empty single-day frame and g.open_min_1 <= (open - pre_close) /
pre_close * 100 <= g.open_max_1. -/
def opening_ok1 (m : Market) (p : Params) (c : Code) (date : Date) : Bool :=
  match m.rowAt c date with
  | some r =>
    decide (p.openMin1 ≤ (r.openP - r.preClose) / r.preClose * 100 ∧
            (r.openP - r.preClose) / r.preClose * 100 ≤ p.openMax1)
  | none => false

/-- filter_stocks_by_opening_range (pool-1 opening-gap filter). -/
def filter_stocks_by_opening_range (m : Market) (p : Params) (date : Date)
    (codeList : List Code) : List Code :=
  codeList.filter (fun c => opening_ok1 m p c date)

/-- get_no_limit_up_stocks: over get_trade_days(date - (no_limit_date - 1),
date), repeatedly drop the codes that were limit-up on that day.  The early
break of the source on an empty list is behaviourally the identity. -/
def get_no_limit_up_stocks (m : Market) (date : Date) (noLimitDate : ℤ)
    (codeList : List Code) : List Code :=
  (m.tradeDaysRange (date - (noLimitDate - 1)) date).foldl
    (fun acc day => acc.filter (fun c => !(limitUpAt m c day))) codeList

/-- Running maximum of the high column of a non-empty list of bars. -/
def rowsMaxHigh (r : Row) (rs : List Row) : ℚ :=
  (rs.map Row.high).foldl max r.high

/-- Running minimum of the low column of a non-empty list of bars. -/
def rowsMinLow (r : Row) (rs : List Row) : ℚ :=
  (rs.map Row.low).foldl min r.low

/-- The pool-1 relative-position test of get_relative_position_stocks:
non-empty watch window, a close at the date (the source fetches it with a
second count=1 query; a NaN close fails the 0 <= rel test exactly as `none`
fails here), distinct window extremes, and (close - min_low) / (max_high -
min_low) within [0, 0.3]. -/
def rel_pos_ok1 (m : Market) (c : Code) (date : Date) (watchDays : Nat) :
    Bool :=
  match m.window c date watchDays with
  | [] => false
  | r :: rs =>
    match m.rowAt c date with
    | some rc =>
      decide (¬ rowsMaxHigh r rs = rowsMinLow r rs ∧
              0 ≤ (rc.close - rowsMinLow r rs) /
                  (rowsMaxHigh r rs - rowsMinLow r rs) ∧
              (rc.close - rowsMinLow r rs) /
                  (rowsMaxHigh r rs - rowsMinLow r rs) ≤ 3/10)
    | none => false

/-- get_relative_position_stocks (pool-1 relative-position filter). -/
def get_relative_position_stocks (m : Market) (date : Date) (watchDays : Nat)
    (codeList : List Code) : List Code :=
  codeList.filter (fun c => rel_pos_ok1 m c date watchDays)

/-- prepare_stock_list (candidate pool 1): resolve today, yesterday and the
day before, then pipe the universe of yesterday through the six filters in
the order of the source.  A date resolution that raises or returns None
makes the Python function fail (None flows into date arithmetic); that is
the `none` branch. -/
def prepare_stock_list (m : Market) (p : Params) (ctx : Context) :
    Option (List Code) :=
  match get_previous_trade_day m ctx 0, get_previous_trade_day m ctx 1,
      get_previous_trade_day m ctx 2 with
  | Except.ok (some date), Except.ok (some lastDate),
      Except.ok (some lastLastDate) =>
    some (get_relative_position_stocks m lastDate 15
      (get_no_limit_up_stocks m lastLastDate 1
        (filter_stocks_by_opening_range m p date
          (filter_st_stock m
            (filter_new_stock m
              (get_limit_up_stock m ((m.allSecurities lastDate)) lastDate)
              lastDate 60)
            lastDate))))
  | _, _, _ => none

/-- get_limit_up_stock2: textually identical to get_limit_up_stock. -/
def get_limit_up_stock2 (m : Market) (initialList : List Code) (date : Date) :
    List Code :=
  initialList.filter (fun c => limitUpAt m c date)

/-- filter_new_stock2: textually identical to filter_new_stock. -/
def filter_new_stock2 (m : Market) (initialList : List Code) (date : Date)
    (days : ℤ) : List Code :=
  initialList.filter (fun s => decide (date - m.startDate s > days))

/-- The pool-2 return-percentage rule of filter_st_stock2: yesterday return
strictly between 9 and 22 percent and todays open-to-close return above 5
percent. -/
def st_rule_ok2 (m : Market) (s : Code) (date : Date) : Bool :=
  match m.window s date 2 with
  | [r1, r2] =>
    decide (9 < (r2.close - r1.close) / r1.close * 100 ∧
            (r2.close - r1.close) / r1.close * 100 < 22 ∧
            (r2.close - r2.openP) / r2.openP * 100 > 5)
  | _ => false

/-- filter_st_stock2 (pool 2 return-percentage filter). -/
def filter_st_stock2 (m : Market) (stockList : List Code) (date : Date) :
    List Code :=
  stockList.filter (fun s => st_rule_ok2 m s date)

/-- The pool-2 opening-range test: same as pool 1 with g.open_min_2 and
g.open_max_2. -/
def opening_ok2 (m : Market) (p : Params) (c : Code) (date : Date) : Bool :=
  match m.rowAt c date with
  | some r =>
    decide (p.openMin2 ≤ (r.openP - r.preClose) / r.preClose * 100 ∧
            (r.openP - r.preClose) / r.preClose * 100 ≤ p.openMax2)
  | none => false

/-- filter_stocks_by_opening_range2 (pool-2 opening-gap filter). -/
def filter_stocks_by_opening_range2 (m : Market) (p : Params) (date : Date)
    (codeList : List Code) : List Code :=
  codeList.filter (fun c => opening_ok2 m p c date)

/-- get_no_limit_up_stocks2: delegates to get_no_limit_up_stocks. -/
def get_no_limit_up_stocks2 (m : Market) (date : Date) (noLimitDate : ℤ)
    (codeList : List Code) : List Code :=
  get_no_limit_up_stocks m date noLimitDate codeList

/-- The pool-2 relative-position test: interval [0, 0.5], otherwise the
body of rel_pos_ok1. -/
def rel_pos_ok2 (m : Market) (c : Code) (date : Date) (watchDays : Nat) :
    Bool :=
  match m.window c date watchDays with
  | [] => false
  | r :: rs =>
    match m.rowAt c date with
    | some rc =>
      decide (¬ rowsMaxHigh r rs = rowsMinLow r rs ∧
              0 ≤ (rc.close - rowsMinLow r rs) /
                  (rowsMaxHigh r rs - rowsMinLow r rs) ∧
              (rc.close - rowsMinLow r rs) /
                  (rowsMaxHigh r rs - rowsMinLow r rs) ≤ 1/2)
    | none => false

/-- get_relative_position_stocks2 (pool-2 relative-position filter). -/
def get_relative_position_stocks2 (m : Market) (date : Date) (watchDays : Nat)
    (codeList : List Code) : List Code :=
  codeList.filter (fun c => rel_pos_ok2 m c date watchDays)

/-- prepare_stock_list2 (candidate pool 2): the pool-2 variants in the same
six-filter order, with watch window 30. -/
def prepare_stock_list2 (m : Market) (p : Params) (ctx : Context) :
    Option (List Code) :=
  match get_previous_trade_day m ctx 0, get_previous_trade_day m ctx 1,
      get_previous_trade_day m ctx 2 with
  | Except.ok (some date), Except.ok (some lastDate),
      Except.ok (some lastLastDate) =>
    some (get_relative_position_stocks2 m lastDate 30
      (get_no_limit_up_stocks2 m lastLastDate 1
        (filter_stocks_by_opening_range2 m p date
          (filter_st_stock2 m
            (filter_new_stock2 m
              (get_limit_up_stock2 m ((m.allSecurities lastDate)) lastDate)
              lastDate 60)
            lastDate))))
  | _, _, _ => none

/-- A held position: the fields sell and the risk-control job read. -/
structure Position where
  closeableAmount : ℚ
  avgCost : ℚ
deriving DecidableEq

/-- Snapshot from get_current_data() for one code. -/
structure CurData where
  lastPrice : ℚ
  highLimit : ℚ
deriving DecidableEq

/-- An emitted order_target_value(stock, value) call. -/
inductive TradeOrder where
  | targetValue (c : Code) (v : ℚ)
deriving DecidableEq

/-- The 11:25 take-profit test of sell(): closeable, last price strictly
below the high limit, last price strictly above average cost. -/
def sell_am_ok (cur : Code → CurData) (sp : Code × Position) : Bool :=
  decide (sp.2.closeableAmount ≠ 0 ∧
          (cur sp.1).lastPrice < (cur sp.1).highLimit ∧
          (cur sp.1).lastPrice > sp.2.avgCost)

/-- The 14:30 exit test of sell(): closeable and last price strictly below
the high limit (take-profit or stop-loss). -/
def sell_pm_ok (cur : Code → CurData) (sp : Code × Position) : Bool :=
  decide (sp.2.closeableAmount ≠ 0 ∧
          (cur sp.1).lastPrice < (cur sp.1).highLimit)

/-- sell(context): the codes ordered to zero.  The two blocks are guarded
by the exact strings 11:25:00 and 14:30:00 compared with the tail of
str(context.current_dt); positions is the portfolio position list. -/
def sell (timeOfDay : String) (positions : List (Code × Position))
    (cur : Code → CurData) : List Code :=
  (if timeOfDay = "11:25:00" then
    (positions.filter (fun sp => sell_am_ok cur sp)).map Prod.fst
  else []) ++
  (if timeOfDay = "14:30:00" then
    (positions.filter (fun sp => sell_pm_ok cur sp)).map Prod.fst
  else [])

/-- The risk-control test of sell_if_limit_down_yesterday for one position
at the resolved yesterday: a (non-missing) bar that closed and bottomed at
the lower limit, or a close at or below -4 percent of average cost.  A
missing bar is the log-and-continue branch.  The Python loss ratio would
raise on avg_cost == 0 after the first branch failed; in ℚ it is a junk
value compared against -4 (noted, not reachable for a real filled
position). -/
def risk_ok (m : Market) (y : Date) (sp : Code × Position) : Bool :=
  match m.rowAt sp.1 y with
  | some r =>
    decide ((r.close = r.lowLimit ∧ r.low = r.lowLimit) ∨
            (r.close - sp.2.avgCost) / sp.2.avgCost * 100 ≤ -4)
  | none => false

/-- sell_if_limit_down_yesterday on an already-resolved yesterday date:
the codes ordered to zero. -/
def sell_if_limit_down_on (m : Market) (y : Date)
    (positions : List (Code × Position)) : List Code :=
  (positions.filter (fun sp => risk_ok m y sp)).map Prod.fst

/-- sell_if_limit_down_yesterday(context): resolves yesterday through
get_previous_trade_day(context, 1); `none` is the raising / None-date
failure of the resolution. -/
def sell_if_limit_down_yesterday (m : Market) (ctx : Context)
    (positions : List (Code × Position)) : Option (List Code) :=
  match get_previous_trade_day m ctx 1 with
  | Except.ok (some y) => some (sell_if_limit_down_on m y positions)
  | _ => none

/-- The day candidate pool built inside buy():
list(dict.fromkeys(stock_list_with_ST + stock_list_not_ST)). -/
def candidate_pool (l1 l2 : List Code) : List Code :=
  Common.dedupFirst (l1 ++ l2)

/-- buy(context): build both pools, dedup keeping order, and when the pool
is non-empty and there is cash, order cash / len(stock_list) of each.  The
result is the emitted order list; `none` is a failing pool preparation. -/
def buy (m : Market) (p : Params) (ctx : Context) (cash : ℚ) :
    Option (List TradeOrder) :=
  match prepare_stock_list m p ctx, prepare_stock_list2 m p ctx with
  | some l1, some l2 =>
    let stockList := candidate_pool l1 l2
    if stockList.length > 0 then
      if cash > 0 then
        some (stockList.map
          (fun s => TradeOrder.targetValue s (cash / (stockList.length : ℚ))))
      else some []
    else some []
  | _, _ => none

/-! Cumulative stage views of the two pipelines, as functions of the
process-wide parameters, used to state which stages can react to the
opening-range thresholds.  Stage i is the pool after the i-th filter. -/

def pool1_stage1 (m : Market) (_p : Params) (_d0 d1 _d2 : Date) : List Code :=
  get_limit_up_stock m (m.allSecurities d1) d1

def pool1_stage2 (m : Market) (p : Params) (d0 d1 d2 : Date) : List Code :=
  filter_new_stock m (pool1_stage1 m p d0 d1 d2) d1 60

def pool1_stage3 (m : Market) (p : Params) (d0 d1 d2 : Date) : List Code :=
  filter_st_stock m (pool1_stage2 m p d0 d1 d2) d1

def pool1_stage4 (m : Market) (p : Params) (d0 d1 d2 : Date) : List Code :=
  filter_stocks_by_opening_range m p d0 (pool1_stage3 m p d0 d1 d2)

def pool1_stage5 (m : Market) (p : Params) (d0 d1 d2 : Date) : List Code :=
  get_no_limit_up_stocks m d2 1 (pool1_stage4 m p d0 d1 d2)

def pool1_stage6 (m : Market) (p : Params) (d0 d1 d2 : Date) : List Code :=
  get_relative_position_stocks m d1 15 (pool1_stage5 m p d0 d1 d2)

def pool2_stage1 (m : Market) (_p : Params) (_d0 d1 _d2 : Date) : List Code :=
  get_limit_up_stock2 m (m.allSecurities d1) d1

def pool2_stage2 (m : Market) (p : Params) (d0 d1 d2 : Date) : List Code :=
  filter_new_stock2 m (pool2_stage1 m p d0 d1 d2) d1 60

def pool2_stage3 (m : Market) (p : Params) (d0 d1 d2 : Date) : List Code :=
  filter_st_stock2 m (pool2_stage2 m p d0 d1 d2) d1

def pool2_stage4 (m : Market) (p : Params) (d0 d1 d2 : Date) : List Code :=
  filter_stocks_by_opening_range2 m p d0 (pool2_stage3 m p d0 d1 d2)

def pool2_stage5 (m : Market) (p : Params) (d0 d1 d2 : Date) : List Code :=
  get_no_limit_up_stocks2 m d2 1 (pool2_stage4 m p d0 d1 d2)

def pool2_stage6 (m : Market) (p : Params) (d0 d1 d2 : Date) : List Code :=
  get_relative_position_stocks2 m d1 30 (pool2_stage5 m p d0 d1 d2)

/-! A small concrete market used to evaluate the embedded strategy on
explicit data: one ticker A, a limit-up bar at dates 1 and 11, opening
bars at dates 2 and 3, two-bar return windows at 1 and 11, and a
high/low watch window. -/

/-- Limit-up bar: close equals the high limit; close 96, low 90. -/
def rLimit : Row :=
  { openP := 0, close := 96, high := 96, low := 90, preClose := 0,
    highLimit := 96, lowLimit := 0 }

/-- Opening bar gapping up 0.5 percent from a pre-close of 100. -/
def rGapUp : Row :=
  { openP := 201/2, close := 0, high := 0, low := 0, preClose := 100,
    highLimit := 0, lowLimit := 0 }

/-- Opening bar gapping down 3.5 percent from a pre-close of 100. -/
def rGapDn : Row :=
  { openP := 193/2, close := 0, high := 0, low := 0, preClose := 100,
    highLimit := 0, lowLimit := 0 }

/-- Plain bar with a given open and close. -/
def rBar (o c : ℚ) : Row :=
  { openP := o, close := c, high := 0, low := 0, preClose := 0,
    highLimit := 0, lowLimit := 0 }

/-- Watch-window bar with high 110 and low 90. -/
def rRange : Row :=
  { openP := 0, close := 0, high := 110, low := 90, preClose := 0,
    highLimit := 0, lowLimit := 0 }

/-- Concrete market: ticker A only; trade days 0, 1, 2. -/
def cMarket : Market where
  rowAt := fun c d =>
    if c = "A" ∧ (d = 1 ∨ d = 11) then some rLimit
    else if c = "A" ∧ d = 2 then some rGapUp
    else if c = "A" ∧ d = 3 then some rGapDn
    else none
  window := fun c d k =>
    if c = "A" ∧ d = 1 ∧ k = 2 then [rBar 100 100, rBar 100 105]
    else if c = "A" ∧ d = 11 ∧ k = 2 then [rBar 100 100, rBar 100 110]
    else if c = "A" ∧ (d = 1 ∨ d = 11) then [rRange]
    else []
  startDate := fun _ => -200
  allSecurities := fun _ => ["A"]
  tradeDaysRange := fun s e => if s = e then [s] else []
  tradeDaysUpTo := fun _ _ => [0, 1, 2]

/-- Concrete context: current date 3 (so trade days resolve to 2, 1, 0). -/
def cCtx : Context := { currentDate := 3, timeOfDay := "09:30:00" }

/-- Concrete one-position portfolio: ticker A held at average cost 100. -/
def cPositions : List (Code × Position) := [("A", ⟨10, 100⟩)]

/-- Alternate thresholds used to exhibit parameter sensitivity. -/
def pAlt : Params :=
  { openMin1 := 2, openMax1 := 3, openMin2 := 5, openMax2 := 6 }

/-! Characterization lemmas for the individual filter predicates. -/

theorem limitUpAt_iff (m : Market) (c : Code) (d : Date) :
    limitUpAt m c d = true ↔
      ∃ r, m.rowAt c d = some r ∧ r.close = r.highLimit := by
  cases h : m.rowAt c d <;> simp [limitUpAt, h]

theorem opening_ok1_iff (m : Market) (p : Params) (c : Code) (d : Date) :
    opening_ok1 m p c d = true ↔
      ∃ r, m.rowAt c d = some r ∧
        p.openMin1 ≤ (r.openP - r.preClose) / r.preClose * 100 ∧
        (r.openP - r.preClose) / r.preClose * 100 ≤ p.openMax1 := by
  cases h : m.rowAt c d <;> simp [opening_ok1, h, and_assoc]

theorem opening_ok2_iff (m : Market) (p : Params) (c : Code) (d : Date) :
    opening_ok2 m p c d = true ↔
      ∃ r, m.rowAt c d = some r ∧
        p.openMin2 ≤ (r.openP - r.preClose) / r.preClose * 100 ∧
        (r.openP - r.preClose) / r.preClose * 100 ≤ p.openMax2 := by
  cases h : m.rowAt c d <;> simp [opening_ok2, h, and_assoc]

theorem rel_pos_ok1_iff (m : Market) (c : Code) (d : Date) (wd : Nat) :
    rel_pos_ok1 m c d wd = true ↔
      ∃ r rs rc, m.window c d wd = r :: rs ∧ m.rowAt c d = some rc ∧
        rowsMaxHigh r rs ≠ rowsMinLow r rs ∧
        0 ≤ (rc.close - rowsMinLow r rs) /
            (rowsMaxHigh r rs - rowsMinLow r rs) ∧
        (rc.close - rowsMinLow r rs) /
            (rowsMaxHigh r rs - rowsMinLow r rs) ≤ 3/10 := by
  cases hw : m.window c d wd with
  | nil => simp [rel_pos_ok1, hw]
  | cons r rs =>
    cases hr : m.rowAt c d <;>
      simp [rel_pos_ok1, hw, hr, and_assoc]

theorem rel_pos_ok2_iff (m : Market) (c : Code) (d : Date) (wd : Nat) :
    rel_pos_ok2 m c d wd = true ↔
      ∃ r rs rc, m.window c d wd = r :: rs ∧ m.rowAt c d = some rc ∧
        rowsMaxHigh r rs ≠ rowsMinLow r rs ∧
        0 ≤ (rc.close - rowsMinLow r rs) /
            (rowsMaxHigh r rs - rowsMinLow r rs) ∧
        (rc.close - rowsMinLow r rs) /
            (rowsMaxHigh r rs - rowsMinLow r rs) ≤ 1/2 := by
  cases hw : m.window c d wd with
  | nil => simp [rel_pos_ok2, hw]
  | cons r rs =>
    cases hr : m.rowAt c d <;>
      simp [rel_pos_ok2, hw, hr, and_assoc]

theorem risk_ok_iff (m : Market) (y : Date) (sp : Code × Position) :
    risk_ok m y sp = true ↔
      ∃ r, m.rowAt sp.1 y = some r ∧
        ((r.close = r.lowLimit ∧ r.low = r.lowLimit) ∨
         (r.close - sp.2.avgCost) / sp.2.avgCost * 100 ≤ -4) := by
  cases h : m.rowAt sp.1 y <;> simp [risk_ok, h]

/-! Shrinking lemmas: every stage keeps only codes of its input. -/

theorem get_no_limit_up_stocks_subset (m : Market) (date : Date)
    (noLimitDate : ℤ) (codeList : List Code) :
    get_no_limit_up_stocks m date noLimitDate codeList ⊆ codeList := by
  unfold get_no_limit_up_stocks
  generalize m.tradeDaysRange (date - (noLimitDate - 1)) date = days
  induction days generalizing codeList with
  | nil => simp [List.foldl]
  | cons day rest ih =>
    intro c hc
    exact (List.filter_sublist _).subset (ih (codeList.filter fun c => !(limitUpAt m c day)) hc)

theorem mem_map_fst_filter (f : Code × Position → Bool)
    (positions : List (Code × Position)) (s : Code) :
    s ∈ (positions.filter f).map Prod.fst ↔
      ∃ pos, (s, pos) ∈ positions ∧ f (s, pos) = true := by
  rw [List.mem_map]
  constructor
  · rintro ⟨⟨c, pos⟩, hmem, rfl⟩
    rw [List.mem_filter] at hmem
    exact ⟨pos, hmem.1, hmem.2⟩
  · rintro ⟨pos, hmem, hf⟩
    exact ⟨(s, pos), List.mem_filter.mpr ⟨hmem, hf⟩, rfl⟩

/-! Statement abbreviation for the claim about the pipelines: the pool after
each filter, in source order, with each stage a sub-collection of the
previous one. -/

def pool1_chain_ok (m : Market) (p : Params) (d0 d1 d2 : Date)
    (l : List Code) : Prop :=
  l = pool1_stage6 m p d0 d1 d2 ∧
  pool1_stage1 m p d0 d1 d2 ⊆ m.allSecurities d1 ∧
  pool1_stage2 m p d0 d1 d2 ⊆ pool1_stage1 m p d0 d1 d2 ∧
  pool1_stage3 m p d0 d1 d2 ⊆ pool1_stage2 m p d0 d1 d2 ∧
  pool1_stage4 m p d0 d1 d2 ⊆ pool1_stage3 m p d0 d1 d2 ∧
  pool1_stage5 m p d0 d1 d2 ⊆ pool1_stage4 m p d0 d1 d2 ∧
  pool1_stage6 m p d0 d1 d2 ⊆ pool1_stage5 m p d0 d1 d2

def pool2_chain_ok (m : Market) (p : Params) (d0 d1 d2 : Date)
    (l : List Code) : Prop :=
  l = pool2_stage6 m p d0 d1 d2 ∧
  pool2_stage1 m p d0 d1 d2 ⊆ m.allSecurities d1 ∧
  pool2_stage2 m p d0 d1 d2 ⊆ pool2_stage1 m p d0 d1 d2 ∧
  pool2_stage3 m p d0 d1 d2 ⊆ pool2_stage2 m p d0 d1 d2 ∧
  pool2_stage4 m p d0 d1 d2 ⊆ pool2_stage3 m p d0 d1 d2 ∧
  pool2_stage5 m p d0 d1 d2 ⊆ pool2_stage4 m p d0 d1 d2 ∧
  pool2_stage6 m p d0 d1 d2 ⊆ pool2_stage5 m p d0 d1 d2

theorem pool1_chain_subsets (m : Market) (p : Params) (d0 d1 d2 : Date) :
    pool1_chain_ok m p d0 d1 d2 (pool1_stage6 m p d0 d1 d2) := by
  refine ⟨rfl, ?_, ?_, ?_, ?_, ?_, ?_⟩
  · exact (List.filter_sublist _).subset
  · exact (List.filter_sublist _).subset
  · exact (List.filter_sublist _).subset
  · exact (List.filter_sublist _).subset
  · exact get_no_limit_up_stocks_subset m d2 1 _
  · exact (List.filter_sublist _).subset

theorem pool2_chain_subsets (m : Market) (p : Params) (d0 d1 d2 : Date) :
    pool2_chain_ok m p d0 d1 d2 (pool2_stage6 m p d0 d1 d2) := by
  refine ⟨rfl, ?_, ?_, ?_, ?_, ?_, ?_⟩
  · exact (List.filter_sublist _).subset
  · exact (List.filter_sublist _).subset
  · exact (List.filter_sublist _).subset
  · exact (List.filter_sublist _).subset
  · exact get_no_limit_up_stocks_subset m d2 1 _
  · exact (List.filter_sublist _).subset

/-- C1: each candidate pipeline resolves today, yesterday and the day
before yesterday, then applies to yesterdays full security universe exactly
the six filters limit-up detection, age, return-percentage, opening-gap,
no-recent-limit-up and relative-position, in that order, and every stage
keeps only tickers of its input, so the pool only shrinks. -/
theorem c1_pipeline_six_filters :
    ∀ (m : Market) (p : Params) (ctx : Context),
      (∀ l, prepare_stock_list m p ctx = some l →
        ∃ d0 d1 d2,
          get_previous_trade_day m ctx 0 = Except.ok (some d0) ∧
          get_previous_trade_day m ctx 1 = Except.ok (some d1) ∧
          get_previous_trade_day m ctx 2 = Except.ok (some d2) ∧
          pool1_chain_ok m p d0 d1 d2 l) ∧
      (∀ l, prepare_stock_list2 m p ctx = some l →
        ∃ d0 d1 d2,
          get_previous_trade_day m ctx 0 = Except.ok (some d0) ∧
          get_previous_trade_day m ctx 1 = Except.ok (some d1) ∧
          get_previous_trade_day m ctx 2 = Except.ok (some d2) ∧
          pool2_chain_ok m p d0 d1 d2 l) := by
  intro m p ctx
  constructor
  · intro l hl
    unfold prepare_stock_list at hl
    split at hl
    · rename_i d0 d1 d2 h0 h1 h2
      injection hl with hl
      subst hl
      exact ⟨d0, d1, d2, h0, h1, h2, pool1_chain_subsets m p d0 d1 d2⟩
    · exact absurd hl (by simp)
  · intro l hl
    unfold prepare_stock_list2 at hl
    split at hl
    · rename_i d0 d1 d2 h0 h1 h2
      injection hl with hl
      subst hl
      exact ⟨d0, d1, d2, h0, h1, h2, pool2_chain_subsets m p d0 d1 d2⟩
    · exact absurd hl (by simp)

/-- C1 witness: on the concrete market the pool-1 pipeline succeeds with
pool [A] and the pool-2 pipeline with the empty pool; the theorem applies
to both. -/
theorem c1_witness :
    (prepare_stock_list cMarket set_params cCtx = some ["A"] ∧
      ∃ d0 d1 d2,
        get_previous_trade_day cMarket cCtx 0 = Except.ok (some d0) ∧
        get_previous_trade_day cMarket cCtx 1 = Except.ok (some d1) ∧
        get_previous_trade_day cMarket cCtx 2 = Except.ok (some d2) ∧
        pool1_chain_ok cMarket set_params d0 d1 d2 ["A"]) ∧
    (prepare_stock_list2 cMarket set_params cCtx = some [] ∧
      ∃ d0 d1 d2,
        get_previous_trade_day cMarket cCtx 0 = Except.ok (some d0) ∧
        get_previous_trade_day cMarket cCtx 1 = Except.ok (some d1) ∧
        get_previous_trade_day cMarket cCtx 2 = Except.ok (some d2) ∧
        pool2_chain_ok cMarket set_params d0 d1 d2 []) :=
  ⟨⟨by with_unfolding_all decide,
    (c1_pipeline_six_filters cMarket set_params cCtx).1 ["A"]
      (by with_unfolding_all decide)⟩,
   ⟨by with_unfolding_all decide,
    (c1_pipeline_six_filters cMarket set_params cCtx).2 []
      (by with_unfolding_all decide)⟩⟩

/-- C2: exits happen only under the time-of-day rules: the risk-control job
sells a position iff yesterdays bar closed and bottomed at the lower limit
or closed at a loss of 4 percent or more versus average cost; at 11:25
sell() sells iff closeable, last price strictly below the high limit and
strictly above average cost; at 14:30 sell() sells iff closeable and last
price strictly below the high limit; at any other time sell() issues no
order. -/
theorem c2_exit_rules :
    ∀ (m : Market) (ctx : Context) (positions : List (Code × Position))
      (cur : Code → CurData) (s : Code),
      (∀ l, sell_if_limit_down_yesterday m ctx positions = some l →
        ∃ y, get_previous_trade_day m ctx 1 = Except.ok (some y) ∧
          (s ∈ l ↔ ∃ pos, (s, pos) ∈ positions ∧
            ∃ r, m.rowAt s y = some r ∧
              ((r.close = r.lowLimit ∧ r.low = r.lowLimit) ∨
               (r.close - pos.avgCost) / pos.avgCost * 100 ≤ -4))) ∧
      (s ∈ sell "11:25:00" positions cur ↔
        ∃ pos, (s, pos) ∈ positions ∧ pos.closeableAmount ≠ 0 ∧
          (cur s).lastPrice < (cur s).highLimit ∧
          (cur s).lastPrice > pos.avgCost) ∧
      (s ∈ sell "14:30:00" positions cur ↔
        ∃ pos, (s, pos) ∈ positions ∧ pos.closeableAmount ≠ 0 ∧
          (cur s).lastPrice < (cur s).highLimit) ∧
      (∀ t, t ≠ "11:25:00" → t ≠ "14:30:00" → sell t positions cur = []) := by
  intro m ctx positions cur s
  refine ⟨?_, ?_, ?_, ?_⟩
  · intro l hl
    unfold sell_if_limit_down_yesterday at hl
    split at hl
    · rename_i y h1
      injection hl with hl
      subst hl
      refine ⟨y, h1, ?_⟩
      rw [sell_if_limit_down_on, mem_map_fst_filter]
      constructor
      · rintro ⟨pos, hmem, hok⟩
        exact ⟨pos, hmem, (risk_ok_iff m y (s, pos)).mp hok⟩
      · rintro ⟨pos, hmem, hok⟩
        exact ⟨pos, hmem, (risk_ok_iff m y (s, pos)).mpr hok⟩
    · exact absurd hl (by simp)
  · rw [sell, if_pos rfl, if_neg (by decide), List.append_nil,
      mem_map_fst_filter]
    constructor
    · rintro ⟨pos, hmem, hok⟩
      rw [sell_am_ok, decide_eq_true_eq] at hok
      exact ⟨pos, hmem, hok⟩
    · rintro ⟨pos, hmem, hok⟩
      exact ⟨pos, hmem, by rw [sell_am_ok, decide_eq_true_eq]; exact hok⟩
  · rw [sell, if_neg (by decide), if_pos rfl, List.nil_append,
      mem_map_fst_filter]
    constructor
    · rintro ⟨pos, hmem, hok⟩
      rw [sell_pm_ok, decide_eq_true_eq] at hok
      exact ⟨pos, hmem, hok⟩
    · rintro ⟨pos, hmem, hok⟩
      exact ⟨pos, hmem, by rw [sell_pm_ok, decide_eq_true_eq]; exact hok⟩
  · intro t h1 h2
    rw [sell, if_neg h1, if_neg h2, List.append_nil]

/-- C2 witness: on the concrete market the risk-control job at 09:30 sells
the held position A (it closed at 96 against an average cost of 100, a 4
percent loss); the theorem applies at that run. -/
theorem c2_witness :
    sell_if_limit_down_yesterday cMarket cCtx cPositions = some ["A"] ∧
    (∃ y, get_previous_trade_day cMarket cCtx 1 = Except.ok (some y) ∧
      ("A" ∈ ["A"] ↔ ∃ pos, ("A", pos) ∈ cPositions ∧
        ∃ r, cMarket.rowAt "A" y = some r ∧
          ((r.close = r.lowLimit ∧ r.low = r.lowLimit) ∨
           (r.close - pos.avgCost) / pos.avgCost * 100 ≤ -4))) :=
  ⟨by with_unfolding_all decide,
   (c2_exit_rules cMarket cCtx cPositions (fun _ => ⟨0, 0⟩) "A").1 ["A"]
     (by with_unfolding_all decide)⟩

/-- C3 counterexample: the claim is false already at the first stage of
pool 1: limit-up detection never reacts to the opening-range thresholds,
so no pair of threshold assignments makes its output differ. -/
theorem c3_counterexample :
    ¬ ∃ (m : Market) (d0 d1 d2 : Date) (p p' : Params),
        pool1_stage1 m p d0 d1 d2 ≠ pool1_stage1 m p' d0 d1 d2 := by
  rintro ⟨m, d0, d1, d2, p, p', h⟩
  exact h rfl

/-- C3 amended: the opening-range thresholds are read only by the
opening-gap stage: the first three stages of each pool are independent of
them, while for stage four and the two stages after it there are two
assignments (and market data) under which each of those stages outputs
differ. -/
theorem c3_thresholds_amended :
    (∀ (m : Market) (p p' : Params) (d0 d1 d2 : Date),
      pool1_stage1 m p d0 d1 d2 = pool1_stage1 m p' d0 d1 d2 ∧
      pool1_stage2 m p d0 d1 d2 = pool1_stage2 m p' d0 d1 d2 ∧
      pool1_stage3 m p d0 d1 d2 = pool1_stage3 m p' d0 d1 d2 ∧
      pool2_stage1 m p d0 d1 d2 = pool2_stage1 m p' d0 d1 d2 ∧
      pool2_stage2 m p d0 d1 d2 = pool2_stage2 m p' d0 d1 d2 ∧
      pool2_stage3 m p d0 d1 d2 = pool2_stage3 m p' d0 d1 d2) ∧
    (∃ (m : Market) (d0 d1 d2 : Date) (p p' : Params),
      pool1_stage4 m p d0 d1 d2 ≠ pool1_stage4 m p' d0 d1 d2 ∧
      pool1_stage5 m p d0 d1 d2 ≠ pool1_stage5 m p' d0 d1 d2 ∧
      pool1_stage6 m p d0 d1 d2 ≠ pool1_stage6 m p' d0 d1 d2) ∧
    (∃ (m : Market) (d0 d1 d2 : Date) (p p' : Params),
      pool2_stage4 m p d0 d1 d2 ≠ pool2_stage4 m p' d0 d1 d2 ∧
      pool2_stage5 m p d0 d1 d2 ≠ pool2_stage5 m p' d0 d1 d2 ∧
      pool2_stage6 m p d0 d1 d2 ≠ pool2_stage6 m p' d0 d1 d2) :=
  ⟨fun _ _ _ _ _ _ => ⟨rfl, rfl, rfl, rfl, rfl, rfl⟩,
   ⟨cMarket, 2, 1, 0, set_params, pAlt, by with_unfolding_all decide,
    by with_unfolding_all decide, by with_unfolding_all decide⟩,
   ⟨cMarket, 3, 11, 10, set_params, pAlt, by with_unfolding_all decide,
    by with_unfolding_all decide, by with_unfolding_all decide⟩⟩

/-- C4: the opening-gap filter keeps a code iff the single-day frame at
the date is non-empty and the percentage gap between todays open and the
previous close lies within the closed threshold interval; pool 2 is
identical with the pool-2 bounds. -/
theorem c4_opening_range_iff :
    ∀ (m : Market) (p : Params) (d : Date) (codes : List Code) (c : Code),
      (c ∈ filter_stocks_by_opening_range m p d codes ↔
        c ∈ codes ∧ ∃ r, m.rowAt c d = some r ∧
          p.openMin1 ≤ (r.openP - r.preClose) / r.preClose * 100 ∧
          (r.openP - r.preClose) / r.preClose * 100 ≤ p.openMax1) ∧
      (c ∈ filter_stocks_by_opening_range2 m p d codes ↔
        c ∈ codes ∧ ∃ r, m.rowAt c d = some r ∧
          p.openMin2 ≤ (r.openP - r.preClose) / r.preClose * 100 ∧
          (r.openP - r.preClose) / r.preClose * 100 ≤ p.openMax2) := by
  intro m p d codes c
  constructor
  · rw [filter_stocks_by_opening_range, List.mem_filter, opening_ok1_iff]
  · rw [filter_stocks_by_opening_range2, List.mem_filter, opening_ok2_iff]

/-- C5: the relative-position filter keeps a code iff the watch-window
data and the close at the date exist, the window extremes differ (the
division is guarded), and the close normalized against the window range
lies in [0, 0.3]; the pool-2 variant is identical with [0, 0.5]; the
pipelines instantiate the watch window at 15 days (pool 1) and 30 days
(pool 2). -/
theorem c5_relative_position_iff :
    ∀ (m : Market) (d : Date) (wd : Nat) (codes : List Code) (c : Code),
      (c ∈ get_relative_position_stocks m d wd codes ↔
        c ∈ codes ∧ ∃ r rs rc, m.window c d wd = r :: rs ∧
          m.rowAt c d = some rc ∧
          rowsMaxHigh r rs ≠ rowsMinLow r rs ∧
          0 ≤ (rc.close - rowsMinLow r rs) /
              (rowsMaxHigh r rs - rowsMinLow r rs) ∧
          (rc.close - rowsMinLow r rs) /
              (rowsMaxHigh r rs - rowsMinLow r rs) ≤ 3/10) ∧
      (c ∈ get_relative_position_stocks2 m d wd codes ↔
        c ∈ codes ∧ ∃ r rs rc, m.window c d wd = r :: rs ∧
          m.rowAt c d = some rc ∧
          rowsMaxHigh r rs ≠ rowsMinLow r rs ∧
          0 ≤ (rc.close - rowsMinLow r rs) /
              (rowsMaxHigh r rs - rowsMinLow r rs) ∧
          (rc.close - rowsMinLow r rs) /
              (rowsMaxHigh r rs - rowsMinLow r rs) ≤ 1/2) ∧
      (∀ (p : Params) (d0 d2 : Date),
        pool1_stage6 m p d0 d d2 =
          get_relative_position_stocks m d 15 (pool1_stage5 m p d0 d d2) ∧
        pool2_stage6 m p d0 d d2 =
          get_relative_position_stocks2 m d 30 (pool2_stage5 m p d0 d d2)) := by
  intro m d wd codes c
  refine ⟨?_, ?_, fun p d0 d2 => ⟨rfl, rfl⟩⟩
  · rw [get_relative_position_stocks, List.mem_filter, rel_pos_ok1_iff]
  · rw [get_relative_position_stocks2, List.mem_filter, rel_pos_ok2_iff]

/-- C6: the candidate pool built in buy() contains a ticker iff it is in
pool 1 or pool 2, has no duplicates, preserves the relative order of first
occurrences of pool-1 ++ pool-2 (pool-1 entries before new pool-2
entries), and buy() spends cash / len(pool) per ticker of exactly that
pool; the pool is a local value recomputed from both pools on every call
(the embedding returns it without writing any surviving state). -/
theorem c6_candidate_pool :
    ∀ (m : Market) (p : Params) (ctx : Context) (cash : ℚ)
      (l1 l2 : List Code),
      prepare_stock_list m p ctx = some l1 →
      prepare_stock_list2 m p ctx = some l2 →
      (∀ c, c ∈ candidate_pool l1 l2 ↔ c ∈ l1 ∨ c ∈ l2) ∧
      (candidate_pool l1 l2).Nodup ∧
      List.Sublist (candidate_pool l1 l2) (l1 ++ l2) ∧
      (∃ t, candidate_pool l1 l2 = Common.dedupFirst l1 ++ t ∧
        ∀ c ∈ t, c ∈ l2 ∧ c ∉ l1) ∧
      (0 < cash → candidate_pool l1 l2 ≠ [] →
        buy m p ctx cash = some ((candidate_pool l1 l2).map
          (fun s => TradeOrder.targetValue s
            (cash / ((candidate_pool l1 l2).length : ℚ))))) := by
  intro m p ctx cash l1 l2 h1 h2
  refine ⟨?_, Common.nodup_dedupFirst _, Common.dedupFirst_sublist _, ?_, ?_⟩
  · intro c
    rw [candidate_pool, Common.mem_dedupFirst, List.mem_append]
  · exact Common.dedupFirst_append l1 l2
  · intro hcash hne
    have hlen : (candidate_pool l1 l2).length > 0 := List.length_pos.mpr hne
    rw [buy, h1, h2]
    simp only [candidate_pool] at hlen ⊢
    rw [if_pos hlen, if_pos hcash]

/-- C6 witness: on the concrete market pool 1 is [A] and pool 2 empty; the
candidate pool is [A] and buy() orders the full cash on it. -/
theorem c6_witness :
    (prepare_stock_list cMarket set_params cCtx = some ["A"] ∧
     prepare_stock_list2 cMarket set_params cCtx = some [] ∧
     0 < (100 : ℚ) ∧ candidate_pool ["A"] [] ≠ []) ∧
    ((∀ c, c ∈ candidate_pool ["A"] [] ↔ c ∈ ["A"] ∨ c ∈ ([] : List Code)) ∧
     (candidate_pool ["A"] []).Nodup ∧
     List.Sublist (candidate_pool ["A"] []) (["A"] ++ []) ∧
     (∃ t, candidate_pool ["A"] [] = Common.dedupFirst ["A"] ++ t ∧
       ∀ c ∈ t, c ∈ ([] : List Code) ∧ c ∉ ["A"]) ∧
     (0 < (100 : ℚ) → candidate_pool ["A"] [] ≠ [] →
       buy cMarket set_params cCtx 100 = some ((candidate_pool ["A"] []).map
         (fun s => TradeOrder.targetValue s
           (100 / ((candidate_pool ["A"] []).length : ℚ)))))) :=
  ⟨⟨by with_unfolding_all decide, by with_unfolding_all decide,
    by with_unfolding_all decide, by with_unfolding_all decide⟩,
   c6_candidate_pool cMarket set_params cCtx 100 ["A"] []
     (by with_unfolding_all decide) (by with_unfolding_all decide)⟩

/-- C9: get_previous_trade_day returns the (n+1)-th most recent trading
day for every n below the calendar length, but its None-guard is off by
one: None is returned exactly when n exceeds the length, and at n equal to
the length the guard does not fire, the negative index is out of range and
the IndexError branch of the embedding is reached. -/
theorem c9_previous_trade_day :
    ∀ (m : Market) (ctx : Context) (n : Nat),
      (n < (m.tradeDaysUpTo ctx.currentDate 100).length →
        get_previous_trade_day m ctx n =
          Except.ok ((m.tradeDaysUpTo ctx.currentDate 100).reverse.get? n) ∧
        ((m.tradeDaysUpTo ctx.currentDate 100).reverse.get? n).isSome =
          true) ∧
      (get_previous_trade_day m ctx n = Except.ok none ↔
        n > (m.tradeDaysUpTo ctx.currentDate 100).length) ∧
      (n = (m.tradeDaysUpTo ctx.currentDate 100).length →
        get_previous_trade_day m ctx n = Except.error ()) := by
  intro m ctx n
  refine ⟨?_, ?_, ?_⟩
  · intro h
    have hng : ¬ n > (m.tradeDaysUpTo ctx.currentDate 100).length := by omega
    have hle : n + 1 ≤ (m.tradeDaysUpTo ctx.currentDate 100).length := by
      omega
    have hidx : (m.tradeDaysUpTo ctx.currentDate 100).length - (n + 1) <
        (m.tradeDaysUpTo ctx.currentDate 100).length := by omega
    rw [get_previous_trade_day]
    simp only [if_neg hng, if_pos hle]
    constructor
    · rw [List.get?_reverse h, Nat.sub_sub, Nat.add_comm]
    · rw [List.get?_reverse h, Nat.sub_sub, Nat.add_comm,
        List.get?_eq_get hidx]
      rfl
  · rw [get_previous_trade_day]
    by_cases hgt : n > (m.tradeDaysUpTo ctx.currentDate 100).length
    · simp only [if_pos hgt]
      exact ⟨fun _ => hgt, fun _ => trivial⟩
    · simp only [if_neg hgt]
      by_cases hle : n + 1 ≤ (m.tradeDaysUpTo ctx.currentDate 100).length
      · simp only [if_pos hle]
        have hidx : (m.tradeDaysUpTo ctx.currentDate 100).length - (n + 1) <
            (m.tradeDaysUpTo ctx.currentDate 100).length := by omega
        rw [List.get?_eq_get hidx]
        exact ⟨fun h => absurd h (by simp), fun h => absurd h hgt⟩
      · simp only [if_neg hle]
        exact ⟨fun h => absurd h (by simp), fun h => absurd h hgt⟩
  · intro h
    have hng : ¬ n > (m.tradeDaysUpTo ctx.currentDate 100).length := by omega
    have hnle : ¬ n + 1 ≤ (m.tradeDaysUpTo ctx.currentDate 100).length := by
      omega
    rw [get_previous_trade_day]
    simp only [if_neg hng, if_neg hnle]

/-- C9 witness: on the concrete calendar [0, 1, 2], n = 1 resolves to day
1 (the second most recent) and n = 3 = length reaches the IndexError
branch. -/
theorem c9_witness :
    (1 < (cMarket.tradeDaysUpTo cCtx.currentDate 100).length ∧
      get_previous_trade_day cMarket cCtx 1 =
        Except.ok ((cMarket.tradeDaysUpTo cCtx.currentDate 100).reverse.get?
          1)) ∧
    (3 = (cMarket.tradeDaysUpTo cCtx.currentDate 100).length ∧
      get_previous_trade_day cMarket cCtx 3 = Except.error ()) :=
  ⟨⟨by decide, ((c9_previous_trade_day cMarket cCtx 1).1 (by decide)).1⟩,
   ⟨by decide, (c9_previous_trade_day cMarket cCtx 3).2.2 (by decide)⟩⟩

/-- C10: the pool-2 helpers get_limit_up_stock2, filter_new_stock2 and
get_no_limit_up_stocks2 agree with their pool-1 counterparts on every
input. -/
theorem c10_pool2_helpers_eq :
    ∀ (m : Market) (l : List Code) (d : Date) (days k : ℤ)
      (cl : List Code),
      get_limit_up_stock2 m l d = get_limit_up_stock m l d ∧
      filter_new_stock2 m l d days = filter_new_stock m l d days ∧
      get_no_limit_up_stocks2 m d k cl = get_no_limit_up_stocks m d k cl :=
  fun _ _ _ _ _ _ => ⟨rfl, rfl, rfl⟩

end StrategyFbLowOpen

namespace PeMeasure

/-! Shallow embedding of src/PB PE可视化/pe_measure.py (valuation fetch,
alignment and cleaning; the matplotlib rendering is outside the claims).

A raw pandas cell is `Cell`: a finite float value, an infinity (dropped by
_to_float_clean after replacement with NaN, but forward-filled as a value
before that), or NaN (also covering None; skipped by ffill and dropped by
_to_float_clean).  Dates are trading-day ordinals (ℤ); the W and M
resampling rules are modelled by an arbitrary period-labelling map
per : ℤ → ℤ sending each date to its period label, with per-period last
observations kept, which is resample(rule).last().dropna() on the cleaned
(NaN-free) series. -/

/-- One raw valuation cell. -/
inductive Cell where
  | num (q : ℚ)
  | inf
  | nan
deriving DecidableEq

/-- _to_float_clean on one cell: keep finite numbers, drop NaN and
infinities. -/
def cleanCell : Cell → Option ℚ
  | Cell.num q => some q
  | Cell.inf => none
  | Cell.nan => none

/-- One row of the valuation table: MultiIndex (date, code) with columns
pe_ratio and pb_ratio. -/
structure VRow where
  date : ℤ
  code : String
  pe : Cell
  pb : Cell
deriving DecidableEq

/-- df_all.xs(stock, level=code): the rows of one ticker, in table order
(the except branch of the source yields the empty frame, i.e. []). -/
def xsCode (tbl : List VRow) (c : String) : List VRow :=
  tbl.filter (fun r => decide (r.code = c))

/-- The pe cell a date resolves to after drop_duplicates(subset=date,
keep=last) and reindex: the last row carrying that exact date, else NaN. -/
def peCellAt (rows : List VRow) (d : ℤ) : Cell :=
  match (rows.filter (fun r => decide (r.date = d))).getLast? with
  | some r => r.pe
  | none => Cell.nan

/-- The pb cell a date resolves to, as `peCellAt`. -/
def pbCellAt (rows : List VRow) (d : ℤ) : Cell :=
  match (rows.filter (fun r => decide (r.date = d))).getLast? with
  | some r => r.pb
  | none => Cell.nan

/-- reindex(trade_days).ffill() on one column: walk the trading days
carrying the last non-NaN cell forward. -/
def ffillCol (lookup : ℤ → Cell) : List ℤ → Cell → List (ℤ × Cell)
  | [], _ => []
  | d :: ds, carry =>
    match lookup d with
    | Cell.nan => (d, carry) :: ffillCol lookup ds carry
    | c => (d, c) :: ffillCol lookup ds c

/-- _to_float_clean on a series: drop the dates whose cell cleans away. -/
def cleanSeries (s : List (ℤ × Cell)) : List (ℤ × ℚ) :=
  s.filterMap (fun p => (cleanCell p.2).map (fun q => (p.1, q)))

/-- The index of a series. -/
def seriesIdx (s : List (ℤ × ℚ)) : List ℤ :=
  s.map Prod.fst

/-- s.loc[idx] for idx an index intersection: keep the points whose date
is in the other index. -/
def restrictTo (s : List (ℤ × ℚ)) (idx : List ℤ) : List (ℤ × ℚ) :=
  s.filter (fun p => decide (p.1 ∈ idx))

/-- resample(rule).last().dropna() on a clean series: one point per
occupied period, labelled by the period and carrying the last observation
of that period. -/
def resampleLast (per : ℤ → ℤ) (s : List (ℤ × ℚ)) : List (ℤ × ℚ) :=
  (Common.dedupFirst (s.map (fun p => per p.1))).filterMap
    (fun g => ((s.filter (fun p => decide (per p.1 = g))).getLast?).map
      (fun p => (g, p.2)))

/-- The pe column of _prep_single_stock after dedup, reindex, ffill and
clean. -/
def prepPe0 (tbl : List VRow) (c : String) (days : List ℤ) :
    List (ℤ × ℚ) :=
  cleanSeries (ffillCol (peCellAt (xsCode tbl c)) days Cell.nan)

/-- The pb column of _prep_single_stock after dedup, reindex, ffill and
clean. -/
def prepPb0 (tbl : List VRow) (c : String) (days : List ℤ) :
    List (ℤ × ℚ) :=
  cleanSeries (ffillCol (pbCellAt (xsCode tbl c)) days Cell.nan)

/-- pe.loc[idx] for idx = pe.index.intersection(pb.index). -/
def prepPe1 (tbl : List VRow) (c : String) (days : List ℤ) :
    List (ℤ × ℚ) :=
  restrictTo (prepPe0 tbl c days) (seriesIdx (prepPb0 tbl c days))

/-- pb.loc[idx] for idx = pe.index.intersection(pb.index). -/
def prepPb1 (tbl : List VRow) (c : String) (days : List ℤ) :
    List (ℤ × ℚ) :=
  restrictTo (prepPb0 tbl c days) (seriesIdx (prepPe0 tbl c days))

/-- _prep_single_stock: returns the aligned (pe, pb) pair; with W or M
resampling the per-period last observations are taken and the same index
intersection is applied again. -/
def prep_single_stock (tbl : List VRow) (c : String) (days : List ℤ)
    (resample : Option (ℤ → ℤ)) : List (ℤ × ℚ) × List (ℤ × ℚ) :=
  match resample with
  | none => (prepPe1 tbl c days, prepPb1 tbl c days)
  | some per =>
    let peR := resampleLast per (prepPe1 tbl c days)
    let pbR := resampleLast per (prepPb1 tbl c days)
    (restrictTo peR (seriesIdx pbR), restrictTo pbR (seriesIdx peR))

/-! Structural lemmas about the alignment steps. -/

theorem ffillCol_idx (lookup : ℤ → Cell) :
    ∀ (ds : List ℤ) (carry : Cell),
      (ffillCol lookup ds carry).map Prod.fst = ds := by
  intro ds
  induction ds with
  | nil => intro carry; rfl
  | cons d ds ih =>
    intro carry
    cases h : lookup d <;> simp [ffillCol, h, ih]

theorem cleanSeries_idx_sublist (s : List (ℤ × Cell)) :
    List.Sublist ((cleanSeries s).map Prod.fst) (s.map Prod.fst) := by
  induction s with
  | nil => simp [cleanSeries]
  | cons p ps ih =>
    cases h : cleanCell p.2 with
    | none =>
      simpa [cleanSeries, List.filterMap_cons, h] using ih.cons p.1
    | some q =>
      simpa [cleanSeries, List.filterMap_cons, h] using ih.cons₂ p.1

theorem restrictTo_idx (s : List (ℤ × ℚ)) (idx : List ℤ) :
    seriesIdx (restrictTo s idx) =
      (seriesIdx s).filter (fun d => decide (d ∈ idx)) := by
  induction s with
  | nil => rfl
  | cons p ps ih =>
    by_cases h : p.1 ∈ idx <;>
      simp [restrictTo, seriesIdx, List.filter_cons, h] <;>
      simpa [restrictTo, seriesIdx] using ih

theorem sublist_eq_filter_mem {s l : List ℤ} (hs : List.Sublist s l)
    (hnd : l.Nodup) : s = l.filter (fun x => decide (x ∈ s)) := by
  induction hs with
  | slnil => rfl
  | @cons l₁ l₂ a hsub ih =>
    have hna : a ∉ l₂ := (List.nodup_cons.mp hnd).1
    have hnd2 : l₂.Nodup := (List.nodup_cons.mp hnd).2
    have hnas : a ∉ l₁ := fun hin => hna (hsub.subset hin)
    rw [List.filter_cons]
    have hfa : decide (a ∈ l₁) = false := by simpa using hnas
    rw [hfa]
    simpa using ih hnd2
  | @cons₂ l₁ l₂ a hsub ih =>
    have hna : a ∉ l₂ := (List.nodup_cons.mp hnd).1
    have hnd2 : l₂.Nodup := (List.nodup_cons.mp hnd).2
    rw [List.filter_cons]
    have hfa : decide (a ∈ a :: l₁) = true := by simp
    rw [hfa]
    simp only [if_pos trivial, reduceIte]
    have hcong : l₂.filter (fun x => decide (x ∈ a :: l₁)) =
        l₂.filter (fun x => decide (x ∈ l₁)) := by
      refine List.filter_congr' ?_
      intro x hx
      have hxa : x ≠ a := fun h => hna (h ▸ hx)
      simp [List.mem_cons, hxa]
    rw [hcong, ← ih hnd2]

theorem inter_comm_of_sublists {s t days : List ℤ}
    (hs : List.Sublist s days) (ht : List.Sublist t days)
    (hnd : days.Nodup) :
    s.filter (fun d => decide (d ∈ t)) =
      t.filter (fun d => decide (d ∈ s)) := by
  calc s.filter (fun d => decide (d ∈ t))
      = (days.filter (fun x => decide (x ∈ s))).filter
          (fun d => decide (d ∈ t)) := by
        rw [← sublist_eq_filter_mem hs hnd]
    _ = days.filter (fun a => decide (a ∈ t) && decide (a ∈ s)) :=
        List.filter_filter _ _
    _ = days.filter (fun a => decide (a ∈ s) && decide (a ∈ t)) :=
        List.filter_congr' (fun a _ => Bool.and_comm _ _)
    _ = (days.filter (fun x => decide (x ∈ t))).filter
          (fun d => decide (d ∈ s)) := (List.filter_filter _ _).symm
    _ = t.filter (fun d => decide (d ∈ s)) := by
        rw [← sublist_eq_filter_mem ht hnd]

theorem filterMap_groups_idx (per : ℤ → ℤ) (s : List (ℤ × ℚ)) :
    ∀ gs : List ℤ, (∀ g ∈ gs, ∃ p, p ∈ s ∧ per p.1 = g) →
      ((gs.filterMap (fun g =>
          ((s.filter (fun p => decide (per p.1 = g))).getLast?).map
            (fun p => (g, p.2)))).map Prod.fst = gs) := by
  intro gs
  induction gs with
  | nil => intro _; rfl
  | cons g gs ih =>
    intro hall
    obtain ⟨p0, hp0, hper⟩ := hall g (List.mem_cons_self g gs)
    have hpmem : p0 ∈ s.filter (fun p => decide (per p.1 = g)) :=
      List.mem_filter.mpr ⟨hp0, by simpa using hper⟩
    have hne : s.filter (fun p => decide (per p.1 = g)) ≠ [] :=
      List.ne_nil_of_mem hpmem
    have hsome : (s.filter (fun p => decide (per p.1 = g))).getLast?.isSome :=
      List.getLast?_isSome.mpr hne
    obtain ⟨x, hx⟩ := Option.isSome_iff_exists.mp hsome
    rw [List.filterMap_cons]
    rw [hx]
    simp only [Option.map_some']
    rw [List.map_cons]
    rw [ih (fun g' hg' => hall g' (List.mem_cons_of_mem _ hg'))]

theorem resampleLast_idx (per : ℤ → ℤ) (s : List (ℤ × ℚ)) :
    seriesIdx (resampleLast per s) =
      Common.dedupFirst (s.map (fun p => per p.1)) := by
  rw [resampleLast, seriesIdx]
  refine filterMap_groups_idx per s _ ?_
  intro g hg
  have hmem : g ∈ s.map (fun p => per p.1) :=
    (Common.mem_dedupFirst _ _).mp hg
  obtain ⟨p, hp, hpg⟩ := List.mem_map.mp hmem
  exact ⟨p, hp, hpg⟩

theorem restrictTo_self (s : List (ℤ × ℚ)) :
    restrictTo s (seriesIdx s) = s := by
  refine List.filter_eq_self.mpr ?_
  intro p hp
  simpa [seriesIdx] using List.mem_map_of_mem Prod.fst hp

theorem prep_idx_eq (tbl : List VRow) (c : String) (days : List ℤ)
    (hnd : days.Nodup) :
    seriesIdx (prepPe1 tbl c days) = seriesIdx (prepPb1 tbl c days) := by
  have hpe : List.Sublist (seriesIdx (prepPe0 tbl c days)) days := by
    have h1 := cleanSeries_idx_sublist
      (ffillCol (peCellAt (xsCode tbl c)) days Cell.nan)
    rwa [ffillCol_idx] at h1
  have hpb : List.Sublist (seriesIdx (prepPb0 tbl c days)) days := by
    have h1 := cleanSeries_idx_sublist
      (ffillCol (pbCellAt (xsCode tbl c)) days Cell.nan)
    rwa [ffillCol_idx] at h1
  rw [prepPe1, prepPb1, restrictTo_idx, restrictTo_idx]
  exact inter_comm_of_sublists hpe hpb hnd

/-- C7: _prep_single_stock aligns the per-ticker pe and pb series to the
trading-day calendar: the reindexed-and-forward-filled columns carry
exactly the given trading days as index; the returned pair (after
deduplication by date keeping the last row, forward-fill and float
cleaning dropping NaN and infinities) shares one identical index, the
intersection of the cleaned indices, which is a sub-sequence of the
trading days; and after optional resampling the re-applied intersection
again yields identical indices. -/
theorem c7_prep_alignment :
    ∀ (tbl : List VRow) (c : String) (days : List ℤ),
      days.Nodup →
      ((ffillCol (peCellAt (xsCode tbl c)) days Cell.nan).map Prod.fst =
          days ∧
       (ffillCol (pbCellAt (xsCode tbl c)) days Cell.nan).map Prod.fst =
          days) ∧
      (seriesIdx (prep_single_stock tbl c days none).1 =
          seriesIdx (prep_single_stock tbl c days none).2 ∧
       List.Sublist (seriesIdx (prep_single_stock tbl c days none).1)
          days) ∧
      (∀ per : ℤ → ℤ,
        seriesIdx (prep_single_stock tbl c days (some per)).1 =
          seriesIdx (prep_single_stock tbl c days (some per)).2) := by
  intro tbl c days hnd
  have hpe0 : List.Sublist (seriesIdx (prepPe0 tbl c days)) days := by
    have h1 := cleanSeries_idx_sublist
      (ffillCol (peCellAt (xsCode tbl c)) days Cell.nan)
    rwa [ffillCol_idx] at h1
  refine ⟨⟨ffillCol_idx _ days Cell.nan, ffillCol_idx _ days Cell.nan⟩,
    ⟨prep_idx_eq tbl c days hnd, ?_⟩, ?_⟩
  · show List.Sublist (seriesIdx (prepPe1 tbl c days)) days
    rw [prepPe1, restrictTo_idx]
    exact (List.filter_sublist _).trans hpe0
  · intro per
    have h1 := prep_idx_eq tbl c days hnd
    have hmap : ∀ s : List (ℤ × ℚ),
        s.map (fun p => per p.1) = (seriesIdx s).map per := by
      intro s
      rw [seriesIdx, List.map_map]
      rfl
    have hmapeq : (prepPe1 tbl c days).map (fun p => per p.1) =
        (prepPb1 tbl c days).map (fun p => per p.1) := by
      rw [hmap, hmap, h1]
    have hidxR : seriesIdx (resampleLast per (prepPe1 tbl c days)) =
        seriesIdx (resampleLast per (prepPb1 tbl c days)) := by
      rw [resampleLast_idx, resampleLast_idx, hmapeq]
    show seriesIdx (restrictTo (resampleLast per (prepPe1 tbl c days))
        (seriesIdx (resampleLast per (prepPb1 tbl c days)))) =
      seriesIdx (restrictTo (resampleLast per (prepPb1 tbl c days))
        (seriesIdx (resampleLast per (prepPe1 tbl c days))))
    conv_lhs => rw [← hidxR, restrictTo_self]
    conv_rhs => rw [hidxR, restrictTo_self]
    exact hidxR

/-- Concrete valuation table: ticker A with a duplicated date 0 (the last
row wins) and a NaN pe at date 1 that forward-fills from date 0. -/
def cTbl : List VRow :=
  [⟨0, "A", Cell.num 10, Cell.num 2⟩,
   ⟨0, "A", Cell.num 11, Cell.num 2⟩,
   ⟨1, "A", Cell.nan, Cell.num 3⟩]

/-- C7 witness: the alignment theorem applied to the concrete table on the
two-day calendar [0, 1]. -/
theorem c7_witness :
    (([0, 1] : List ℤ).Nodup) ∧
    (((ffillCol (peCellAt (xsCode cTbl "A")) [0, 1] Cell.nan).map Prod.fst =
        [0, 1] ∧
      (ffillCol (pbCellAt (xsCode cTbl "A")) [0, 1] Cell.nan).map Prod.fst =
        [0, 1]) ∧
     (seriesIdx (prep_single_stock cTbl "A" [0, 1] none).1 =
        seriesIdx (prep_single_stock cTbl "A" [0, 1] none).2 ∧
      List.Sublist (seriesIdx (prep_single_stock cTbl "A" [0, 1] none).1)
        [0, 1]) ∧
     (∀ per : ℤ → ℤ,
       seriesIdx (prep_single_stock cTbl "A" [0, 1] (some per)).1 =
         seriesIdx (prep_single_stock cTbl "A" [0, 1] (some per)).2)) :=
  ⟨by decide, c7_prep_alignment cTbl "A" [0, 1] (by decide)⟩

/-! The valuation fetch of plot_pe_pb_with_price_batch: block fast path
with per-day fallback. -/

/-- The data environment of the valuation script. -/
structure FetchEnv where
  /-- get_trade_days(start_date, end_date), ascending. -/
  tradeDays : ℤ → ℤ → List ℤ
  /-- _fetch_valuation_block as the vendor behaves: `some tbl` is a
  successful non-empty continuous block query (already renamed, indexed
  and sorted); `none` covers every failure the try/except catches — an
  exception from get_fundamentals_continuously as well as the
  RuntimeError the helper itself raises on a None or empty frame. -/
  block : List String → ℤ → Nat → Option (List VRow)
  /-- get_fundamentals(q, date) for one code: the (pe, pb) cells of the
  first row, or `none` for a None or empty frame. -/
  fundAt : String → ℤ → Option (Cell × Cell)

/-- _fetch_valuation_daily_loop: one row per trading day on which the
single-code query returns data; an empty record list is the empty frame. -/
def fetch_valuation_daily_loop (env : FetchEnv) (s : String)
    (days : List ℤ) : List VRow :=
  days.filterMap (fun d =>
    (env.fundAt s d).map (fun pepb => ⟨d, s, pepb.1, pepb.2⟩))

/-- The two exceptions the fetch stage of plot_pe_pb_with_price_batch can
raise: the ValueError for an empty trading-day range, and the RuntimeError
for a failed fallback fetch. -/
inductive FetchErr where
  | noTradingDays
  | fetchFailed
deriving DecidableEq

/-- Insertion step of the (date, code) sort_index ordering. -/
def insertByKey (r : VRow) : List VRow → List VRow
  | [] => [r]
  | x :: xs =>
    if decide (r.date < x.date ∨ (r.date = x.date ∧ r.code ≤ x.code)) then
      r :: x :: xs
    else x :: insertByKey r xs

/-- pd.concat(parts).sort_index(): sort rows by (date, code). -/
def sortTable (tbl : List VRow) : List VRow :=
  tbl.foldr insertByKey []

/-- The fetch stage of plot_pe_pb_with_price_batch: raise ValueError when
the range holds no trading day; try the block query and restrict it to the
range; on any exception run the per-day loop for every stock, and raise
RuntimeError when the concatenation is None (no parts) or empty. -/
def fetch_valuation (env : FetchEnv) (stocks : List String)
    (startTs endTs : ℤ) : Except FetchErr (List VRow) :=
  let days := env.tradeDays startTs endTs
  if days.isEmpty then Except.error FetchErr.noTradingDays
  else
    match env.block stocks endTs days.length with
    | some df =>
      Except.ok (df.filter (fun r =>
        decide (startTs ≤ r.date ∧ r.date ≤ endTs)))
    | none =>
      let parts := stocks.map (fun s => fetch_valuation_daily_loop env s days)
      if parts.isEmpty then Except.error FetchErr.fetchFailed
      else
        let dfAll := sortTable parts.join
        if dfAll.isEmpty then Except.error FetchErr.fetchFailed
        else Except.ok dfAll

/-- C8: the fetch stage raises ValueError exactly when the range holds no
trading day; with trading days present, a successful block query yields
the range-restricted block table, and any block failure (exception, None
or empty, all caught alike) makes the per-day loop run for every stock,
raising RuntimeError iff the concatenated fallback table is None or
empty. -/
theorem c8_fetch_fallback :
    ∀ (env : FetchEnv) (stocks : List String) (startTs endTs : ℤ),
      (fetch_valuation env stocks startTs endTs =
          Except.error FetchErr.noTradingDays ↔
        env.tradeDays startTs endTs = []) ∧
      (∀ df, env.tradeDays startTs endTs ≠ [] →
        env.block stocks endTs (env.tradeDays startTs endTs).length =
          some df →
        fetch_valuation env stocks startTs endTs =
          Except.ok (df.filter (fun r =>
            decide (startTs ≤ r.date ∧ r.date ≤ endTs)))) ∧
      (env.tradeDays startTs endTs ≠ [] →
        env.block stocks endTs (env.tradeDays startTs endTs).length =
          none →
        fetch_valuation env stocks startTs endTs =
          (if (sortTable (stocks.map (fun s =>
                fetch_valuation_daily_loop env s
                  (env.tradeDays startTs endTs))).join).isEmpty then
            Except.error FetchErr.fetchFailed
          else
            Except.ok (sortTable (stocks.map (fun s =>
              fetch_valuation_daily_loop env s
                (env.tradeDays startTs endTs))).join))) := by
  intro env stocks startTs endTs
  refine ⟨?_, ?_, ?_⟩
  · by_cases hd : env.tradeDays startTs endTs = []
    · rw [fetch_valuation]
      simp [List.isEmpty_iff, hd]
    · rw [fetch_valuation]
      have hde : (env.tradeDays startTs endTs).isEmpty = false := by
        simpa [List.isEmpty_iff] using hd
      simp only [hde, Bool.false_eq_true, if_false]
      cases hb : env.block stocks endTs
          (env.tradeDays startTs endTs).length with
      | some df => simp [hd]
      | none =>
        by_cases hp : (stocks.map (fun s =>
            fetch_valuation_daily_loop env s
              (env.tradeDays startTs endTs))).isEmpty
        · simp [hp, hd]
        · simp only [hp, Bool.false_eq_true, if_false]
          by_cases hall : (sortTable (stocks.map (fun s =>
              fetch_valuation_daily_loop env s
                (env.tradeDays startTs endTs))).join).isEmpty
          · simp [hall, hd]
          · simp [hall, hd]
  · intro df hne hb
    rw [fetch_valuation]
    have hde : (env.tradeDays startTs endTs).isEmpty = false := by
      simpa [List.isEmpty_iff] using hne
    simp only [hde, Bool.false_eq_true, if_false, hb]
  · intro hne hb
    rw [fetch_valuation]
    have hde : (env.tradeDays startTs endTs).isEmpty = false := by
      simpa [List.isEmpty_iff] using hne
    simp only [hde, Bool.false_eq_true, if_false, hb]
    by_cases hp : (stocks.map (fun s =>
        fetch_valuation_daily_loop env s
          (env.tradeDays startTs endTs))).isEmpty
    · have hsn : stocks.map (fun s =>
          fetch_valuation_daily_loop env s
            (env.tradeDays startTs endTs)) = [] :=
        List.isEmpty_iff.mp hp
      simp [hp, hsn, sortTable]
    · simp only [hp, Bool.false_eq_true, if_false]

/-- Concrete fetch environment whose block query fails and whose per-day
query has data for ticker A at day 0 only. -/
def cEnv : FetchEnv where
  tradeDays := fun s e => if s = 0 ∧ e = 1 then [0, 1] else []
  block := fun _ _ _ => none
  fundAt := fun s d =>
    if s = "A" ∧ d = 0 then some (Cell.num 10, Cell.num 2) else none

/-- Concrete fetch environment whose block query succeeds. -/
def cEnvB : FetchEnv where
  tradeDays := fun s e => if s = 0 ∧ e = 1 then [0, 1] else []
  block := fun _ _ _ => some [⟨0, "A", Cell.num 10, Cell.num 2⟩]
  fundAt := fun _ _ => none

/-- C8 witness: the theorem applied on the block-success environment (fast
path) and on the block-failure environment (fallback loop). -/
theorem c8_witness :
    (fetch_valuation cEnvB ["A"] 0 1 =
      Except.ok (([⟨0, "A", Cell.num 10, Cell.num 2⟩] : List VRow).filter
        (fun r => decide ((0 : ℤ) ≤ r.date ∧ r.date ≤ (1 : ℤ))))) ∧
    (fetch_valuation cEnv ["A"] 0 1 =
      (if (sortTable ((["A"] : List String).map (fun s =>
            fetch_valuation_daily_loop cEnv s
              (cEnv.tradeDays 0 1))).join).isEmpty then
        Except.error FetchErr.fetchFailed
      else
        Except.ok (sortTable ((["A"] : List String).map (fun s =>
          fetch_valuation_daily_loop cEnv s
            (cEnv.tradeDays 0 1))).join))) :=
  ⟨(c8_fetch_fallback cEnvB ["A"] 0 1).2.1
      [⟨0, "A", Cell.num 10, Cell.num 2⟩] (by decide) (by decide),
   (c8_fetch_fallback cEnv ["A"] 0 1).2.2 (by decide) (by decide)⟩

end PeMeasure
